import Mathlib

/-!
Verification of the record grouping and rendering engine of the GoDaddy → GCP
Terraform DNS migrator (source: `godaddy_dns_to_gcp_terraform.py`).

Python strings are embedded as `List Char`; Python dicts built by insertion are
embedded as insertion-ordered association lists; fallible code returns
`Except PyErr`.  Machine integers do not occur (Python ints are unbounded and
all values here are small non-negative counters), so `Nat` is used directly.
-/

/-- Python strings are modelled as lists of characters. -/
abbrev Str := List Char

/-- Exceptions raised by the embedded code: `NotImplementedError` from the
CNAME renderer, `IndexError` from `[0]` indexing an empty list. -/
inductive PyErr where
  | notImplementedError
  | indexError
deriving DecidableEq

/-- A GoDaddy DNS record, a dict with fields "type", "name", "data", "ttl" and
(for MX records) "priority".  `priority` is present on every modelled record
with value 0 when unused, since only the MX renderer reads it. -/
structure GodaddyRecord where
  type : Str
  name : Str
  data : Str
  ttl : Nat
  priority : Nat
deriving DecidableEq

/-- `s.replace(c, rep)` for a single-character pattern `c`: Python's
`str.replace` substitutes every (for single-character patterns, trivially
non-overlapping) occurrence. -/
def replaceChar (c : Char) (rep : Str) : Str → Str
  | [] => []
  | a :: t => (if a = c then rep else [a]) ++ replaceChar c rep t

/-- `zone_url.rstrip(".")`: remove every trailing `.`. -/
def rstripDots (s : Str) : Str :=
  (s.reverse.dropWhile (fun c => c == '.')).reverse

/-- `zone_url_to_name` (line 13): `zone_url.rstrip(".").replace(".", "-")`. -/
def zone_url_to_name (zone_url : Str) : Str :=
  replaceChar '.' "-".data (rstripDots zone_url)

/-- `sanitize_tf_resource_name` (line 22):
`name.replace(".", "-").replace("_", "")`. -/
def sanitize_tf_resource_name (name : Str) : Str :=
  replaceChar '_' [] (replaceChar '.' "-".data name)

/-- `terraform_zone_stanza` (line 27): the managed-zone block. -/
def terraform_zone_stanza (zone_url : Str) : Str :=
  "\nresource \"google_dns_managed_zone\" \"".data ++ zone_url_to_name zone_url
    ++ "\" \x7b\n  name = \"".data ++ zone_url_to_name zone_url
    ++ "\"\n  dns_name = \"".data ++ zone_url
    ++ ".\"\n  description = \"".data ++ zone_url
    ++ " DNS zone. Managed by Terraform\"\n\n  visibility = \"public\"\n\x7d\n".data

/-- The `suffix` local of `godaddy_to_url` (lines 55-58): either the Terraform
variable reference or the inline zone url. -/
def gddSuffix (zone_url : Str) (use_terraform_var : Bool) : Str :=
  if use_terraform_var then
    "$\x7bgoogle_dns_managed_zone.".data ++ zone_url_to_name zone_url ++ ".dns_name\x7d".data
  else zone_url

/-- `godaddy_to_url` (line 42): convert a GoDaddy name/data field into a url
for the GCP terraform config. -/
def godaddy_to_url (godaddy_attr zone_url : Str)
    (is_rrdatas is_TXT_data use_terraform_var : Bool) : Str :=
  let suffix := gddSuffix zone_url use_terraform_var
  if godaddy_attr = "@".data then suffix
  else if is_rrdatas then
    (if is_TXT_data then godaddy_attr else godaddy_attr ++ ".".data)
  else godaddy_attr ++ ".".data ++ suffix

/-!
`get_ttl` (line 72) evaluates `list(set([r["ttl"] for r in records]))[0]`.
The element produced by `[0]` is the first element in CPython's set iteration
order, which scans the hash table slots in ascending order.  The following
definitions embed CPython's `setobject.c` (3.8-3.12) for keys that are small
non-negative ints, whose hash is the int itself: open addressing over a
power-of-two table starting at size 8, probe sequence
`i, …, i+LINEAR_PROBES` then `i = (i*5 + 1 + (perturb >>= 5)) & mask`, and a
resize to the smallest power of two above `4*used` once `fill*5 >= mask*3`.
The loops carry fuel (they terminate on any reachable table; on fuel
exhaustion the insert becomes a no-op, which never happens on the inputs in
this development).
-/

/-- Result of scanning one linear-probe window. -/
inductive ProbeHit where
  | unused (slot : Nat)
  | active
  | miss
deriving DecidableEq

/-- Scan slots `i, i+1, …, i+k` for the first unused slot or an entry equal to
`x` (the `do … while (probes--)` block of `set_add_entry`). -/
def scanProbes (t : List (Option Nat)) (x : Nat) : Nat → Nat → ProbeHit
  | i, 0 =>
    match t[i]? with
    | some none => .unused i
    | some (some y) => if y = x then .active else .miss
    | none => .miss
  | i, k+1 =>
    match t[i]? with
    | some none => .unused i
    | some (some y) => if y = x then .active else scanProbes t x (i+1) k
    | none => .miss

/-- The probe loop of `set_add_entry`: returns the slot where `x` is to be
placed, or `none` when `x` is already present (or fuel runs out). -/
def setAddLoop (t : List (Option Nat)) (x : Nat) : Nat → Nat → Nat → Option Nat
  | 0, _, _ => none
  | fuel+1, perturb, i =>
    match scanProbes t x i (if i + 9 ≤ t.length - 1 then 9 else 0) with
    | .unused s => some s
    | .active => none
    | .miss =>
      setAddLoop t x fuel (perturb >>> 5) ((i * 5 + 1 + (perturb >>> 5)) % t.length)

/-- Scan slots `i, …, i+k` for the first unused slot (`set_insert_clean`'s
linear-probe window; clean insertion never compares keys). -/
def scanClean (t : List (Option Nat)) : Nat → Nat → Option Nat
  | i, 0 =>
    match t[i]? with
    | some none => some i
    | _ => none
  | i, k+1 =>
    match t[i]? with
    | some none => some i
    | some (some _) => scanClean t (i+1) k
    | none => none

/-- The probe loop of `set_insert_clean`. -/
def cleanLoop (t : List (Option Nat)) (y : Nat) : Nat → Nat → Nat → Option Nat
  | 0, _, _ => none
  | fuel+1, perturb, i =>
    match scanClean t i (if i + 9 ≤ t.length - 1 then 9 else 0) with
    | some s => some s
    | none =>
      cleanLoop t y fuel (perturb >>> 5) ((i * 5 + 1 + (perturb >>> 5)) % t.length)

/-- `set_insert_clean`: place `y` (known absent) into the table. -/
def setInsertClean (t : List (Option Nat)) (y : Nat) : List (Option Nat) :=
  match cleanLoop t y (t.length * 16 + 64) y (y % t.length) with
  | some s => t.set s (some y)
  | none => t

/-- The number of active entries (`so->fill`; no dummies arise here). -/
def setFill (t : List (Option Nat)) : Nat := (t.filterMap id).length

/-- `newsize = PySet_MINSIZE; while (newsize <= minused) newsize <<= 1`. -/
def growSize (minused : Nat) : Nat → Nat → Nat
  | cur, 0 => cur
  | cur, fuel+1 => if cur ≤ minused then growSize minused (cur * 2) fuel else cur

/-- The resize check performed after a successful placement: resize to
`growSize (used*4)` when `fill*5 >= mask*3`, re-inserting the active entries in
table-scan order via `set_insert_clean`. -/
def setMaybeResize (t : List (Option Nat)) : List (Option Nat) :=
  if (t.length - 1) * 3 ≤ setFill t * 5 then
    (t.filterMap id).foldl setInsertClean
      (List.replicate (growSize (setFill t * 4) 8 64) none)
  else t

/-- `set_add_entry`: add `x` to the table, then maybe resize. -/
def setAddEntry (t : List (Option Nat)) (x : Nat) : List (Option Nat) :=
  match setAddLoop t x (t.length * 16 + 64) x (x % t.length) with
  | some s => setMaybeResize (t.set s (some x))
  | none => t

/-- The table of `set(l)` after inserting the elements of `l` in order. -/
def pySet (l : List Nat) : List (Option Nat) :=
  l.foldl setAddEntry (List.replicate 8 none)

/-- `list(set(l))`: the active entries of the final table in slot order
(CPython set iteration order). -/
def pySetList (l : List Nat) : List Nat :=
  (pySet l).filterMap id

/-- `get_ttl` (line 72): `list(set([r["ttl"] for r in records]))[0]`, `none`
when the group is empty (Python raises `IndexError`). -/
def get_ttl (godaddy_records : List GodaddyRecord) : Option Nat :=
  (pySetList (godaddy_records.map (fun r => r.ttl))).head?

/-- The warning condition of `get_ttl` (line 76): `len(unique_ttls) > 1`.
`len` of a Python set is its cardinality — the number of distinct elements —
independent of iteration order, so it is embedded as the length of the
duplicate-free sublist `dedup`. -/
def get_ttl_warns (godaddy_records : List GodaddyRecord) : Bool :=
  1 < ((godaddy_records.map (fun r => r.ttl)).dedup).length

/-- Python's `str(n)` for a non-negative int. -/
def natStr (n : Nat) : Str := (Nat.repr n).data

/-- The f-string template of `terraform_A_record_set` (lines 89-97). -/
def aBlock (resource_name url zone_name : Str) (ttl : Nat) (rrdatas_string : Str) : Str :=
  "\nresource \"google_dns_record_set\" \"".data ++ resource_name
    ++ "-a\" \x7b\n    name = \"".data ++ url
    ++ "\"\n    managed_zone = google_dns_managed_zone.".data ++ zone_name
    ++ ".name\n    type = \"A\"\n    ttl = ".data ++ natStr ttl
    ++ "\n    rrdatas = ".data ++ rrdatas_string ++ "\n\x7d\n".data

/-- `terraform_A_record_set` (line 81). -/
def terraform_A_record_set (godaddy_records : List GodaddyRecord) (zone_url : Str) :
    Except PyErr Str :=
  match godaddy_records with
  | [] => .error .indexError
  | r0 :: _ =>
    let resource_name := sanitize_tf_resource_name (godaddy_to_url r0.name zone_url false false false)
    let url := godaddy_to_url r0.name zone_url false false true
    let rrdata_strings := godaddy_records.map (fun r => "\"".data ++ r.data ++ "\",".data)
    let rrdatas_string := "[".data ++ List.intercalate "\n\t".data rrdata_strings ++ "]".data
    match get_ttl godaddy_records with
    | none => .error .indexError
    | some t => .ok (aBlock resource_name url (zone_url_to_name zone_url) t rrdatas_string)

/-- The f-string template of `terraform_CNAME_record_set` (lines 111-119). -/
def cnameBlock (resource_name url zone_name : Str) (ttl : Nat) (target : Str) : Str :=
  "\nresource \"google_dns_record_set\" \"".data ++ resource_name
    ++ "-cname\" \x7b\n    name = \"".data ++ url
    ++ "\"\n    managed_zone = google_dns_managed_zone.".data ++ zone_name
    ++ ".name\n    type = \"CNAME\"\n    ttl = ".data ++ natStr ttl
    ++ "\n    rrdatas = [\"".data ++ target ++ "\"]\n\x7d\n".data

/-- `terraform_CNAME_record_set` (line 101): raises `NotImplementedError`
unless the group has exactly one record; renders with that record's own
`ttl` field. -/
def terraform_CNAME_record_set (godaddy_records : List GodaddyRecord) (zone_url : Str) :
    Except PyErr Str :=
  match godaddy_records with
  | [r] =>
    .ok (cnameBlock
      (sanitize_tf_resource_name (godaddy_to_url r.name zone_url false false false))
      (godaddy_to_url r.name zone_url false false true)
      (zone_url_to_name zone_url) r.ttl
      (godaddy_to_url r.data zone_url true false true))
  | _ => .error .notImplementedError

/-- The MX sort key comparison: `key=lambda pa: pa[0]`. -/
def mxLe (a b : Nat × Str) : Prop := a.1 ≤ b.1

instance : DecidableRel mxLe := fun a b => Nat.decLe a.1 b.1

instance : IsTotal (Nat × Str) mxLe := ⟨fun a b => Nat.le_total a.1 b.1⟩

instance : IsTrans (Nat × Str) mxLe := ⟨fun _ _ _ => Nat.le_trans⟩

/-- The sorted `priority_addresses` list of `terraform_MX_record_set`
(lines 128-129).  Python's `list.sort` is a stable sort; it is embedded as a
stable insertion sort (equal keys keep their input order), which produces the
same list as any stable sort by the same key. -/
def mxPriorityAddresses (godaddy_records : List GodaddyRecord) : List (Nat × Str) :=
  List.insertionSort mxLe (godaddy_records.map (fun r => (r.priority, r.data)))

/-- The `rrdata_strings` of `terraform_MX_record_set` (line 131):
`f'"{pa[0]} {pa[1]}.",'` for each sorted pair. -/
def mxRrdataStrings (godaddy_records : List GodaddyRecord) : List Str :=
  (mxPriorityAddresses godaddy_records).map
    (fun pa => "\"".data ++ natStr pa.1 ++ " ".data ++ pa.2 ++ ".\",".data)

/-- The f-string template of `terraform_MX_record_set` (lines 134-142). -/
def mxBlock (resource_name url zone_name : Str) (ttl : Nat) (rrdatas_string : Str) : Str :=
  "\nresource \"google_dns_record_set\" \"".data ++ resource_name
    ++ "-mx\" \x7b\n    name = \"".data ++ url
    ++ "\"\n    managed_zone = google_dns_managed_zone.".data ++ zone_name
    ++ ".name\n    type = \"MX\"\n    ttl = ".data ++ natStr ttl
    ++ "\n    rrdatas = ".data ++ rrdatas_string ++ "\n\x7d\n".data

/-- `terraform_MX_record_set` (line 123). -/
def terraform_MX_record_set (godaddy_records : List GodaddyRecord) (zone_url : Str) :
    Except PyErr Str :=
  match godaddy_records with
  | [] => .error .indexError
  | r0 :: _ =>
    let resource_name := sanitize_tf_resource_name (godaddy_to_url r0.name zone_url false false false)
    let url := godaddy_to_url r0.name zone_url false false true
    let rrdatas_string := "[".data ++ List.intercalate "\n\t".data (mxRrdataStrings godaddy_records) ++ "]".data
    match get_ttl godaddy_records with
    | none => .error .indexError
    | some t => .ok (mxBlock resource_name url (zone_url_to_name zone_url) t rrdatas_string)

/-- The delimiter the TXT converter inserts between 255-character chunks:
`r"\" \""`. -/
def txtDelim : Str := "\\\" \\\"".data

/-- The re-assignment `orig_data = f'\\"{orig_data}\\""'` (line 148): the
value wrapped in escaped quotes, plus a trailing unescaped `"`.  Embedded
quotes in the value are not escaped. -/
def wrapTXT (orig_data : Str) : Str :=
  "\\\"".data ++ orig_data ++ "\\\"\"".data

/-- The body of the `while idx < len(orig_data)` loop of `convert_data_for_TXT`
(lines 151-157), as recursion on the suffix not yet consumed: emit
255-character chunks, inserting `txtDelim` whenever more input remains.  The
`Nat` argument is structural-recursion fuel only; any value at least
`s.length` gives the loop's result (`txtChunksGo_fuel`). -/
def txtChunksGo : Nat → Str → Str
  | 0, s => s
  | fuel+1, s =>
    if s.length ≤ 255 then s
    else s.take 255 ++ txtDelim ++ txtChunksGo fuel (s.drop 255)

/-- The chunk loop of `convert_data_for_TXT` on the whole wrapped string. -/
def txtChunks (s : Str) : Str := txtChunksGo s.length s

/-- `convert_data_for_TXT` (line 146): `tgt` starts as `'"'` and accumulates
the chunks of the wrapped value. -/
def convert_data_for_TXT (orig_data : Str) : Str :=
  '"' :: txtChunks (wrapTXT orig_data)

/-- The f-string template of `terraform_TXT_record_set` (lines 173-181). -/
def txtBlock (resource_name url zone_name : Str) (ttl : Nat) (target : Str) : Str :=
  "\nresource \"google_dns_record_set\" \"".data ++ resource_name
    ++ "-txt\" \x7b\n    name = \"".data ++ url
    ++ "\"\n    managed_zone = google_dns_managed_zone.".data ++ zone_name
    ++ ".name\n    type = \"TXT\"\n    ttl = ".data ++ natStr ttl
    ++ "\n    rrdatas = [".data ++ target ++ "]\n\x7d\n".data

/-- `terraform_TXT_record_set` (line 161). -/
def terraform_TXT_record_set (godaddy_records : List GodaddyRecord) (zone_url : Str) :
    Except PyErr Str :=
  match godaddy_records with
  | [] => .error .indexError
  | r0 :: _ =>
    let resource_name := sanitize_tf_resource_name (godaddy_to_url r0.name zone_url false false false)
    let url := godaddy_to_url r0.name zone_url false false true
    let target_strs := godaddy_records.map
      (fun r => convert_data_for_TXT (godaddy_to_url r.data zone_url true true false))
    let target := List.intercalate ",\n\t".data target_strs
    match get_ttl godaddy_records with
    | none => .error .indexError
    | some t => .ok (txtBlock resource_name url (zone_url_to_name zone_url) t target)

/-- Append `r` to the entry of key `k` in an insertion-ordered association
list, creating the entry at the end when absent — the behaviour of
`defaultdict(list)[k].append(r)` under dict insertion order. -/
def addRecord {K R : Type} [DecidableEq K] (acc : List (K × List R)) (k : K) (r : R) :
    List (K × List R) :=
  match acc with
  | [] => [(k, [r])]
  | (k2, rs) :: t => if k2 = k then (k2, rs ++ [r]) :: t else (k2, rs) :: addRecord t k r

/-- One grouping pass: `for record in l: d[key(record)].append(record)`. -/
def groupByKey {K R : Type} [DecidableEq K] (key : R → K) (l : List R) : List (K × List R) :=
  l.foldl (fun acc r => addRecord acc (key r) r) []

/-- Dict lookup on an insertion-ordered association list. -/
def lookupA {K V : Type} [DecidableEq K] (k : K) : List (K × V) → Option V
  | [] => none
  | (k2, v) :: t => if k2 = k then some v else lookupA k t

/-- `group_records_by_type_name` (line 185): the two-layer dict
type → name → records, both layers in insertion order. -/
def group_records_by_type_name (godaddy_records : List GodaddyRecord) :
    List (Str × List (Str × List GodaddyRecord)) :=
  (groupByKey (fun r => r.type) godaddy_records).map
    (fun p => (p.1, groupByKey (fun r => r.name) p.2))

/-- One rendering stage of `export_godaddy_dns_to_tf_file`: write each group's
block to the file in order, stopping at the first raised exception.  The
`Str` component is the file content accumulated so far (the bytes already
written remain in the file when an exception aborts the `with` block). -/
def writeStage (render : List GodaddyRecord → Except PyErr Str) :
    List (List GodaddyRecord) → Str → Str × Option PyErr
  | [], content => (content, none)
  | g :: rest, content =>
    match render g with
    | .error e => (content, some e)
    | .ok s => writeStage render rest (content ++ s)

/-- `type_to_name_to_records[t].values()` guarded by `if t in …` (absent key:
no groups). -/
def innerGroups (t : Str) (grouped : List (Str × List (Str × List GodaddyRecord))) :
    List (List GodaddyRecord) :=
  ((lookupA t grouped).getD []).map (fun p => p.2)

/-- `export_godaddy_dns_to_tf_file` (line 212), with the record fetch factored
out as the input list: group the records, then write the zone stanza followed
by the A, CNAME, MX and TXT stages in that order.  Returns the file content
written before completion or abort, and the exception if one was raised. -/
def export_godaddy_dns_to_tf_file (godaddy_records : List GodaddyRecord) (zone_url : Str) :
    Str × Option PyErr :=
  match writeStage (fun g => terraform_A_record_set g zone_url)
      (innerGroups "A".data (group_records_by_type_name godaddy_records))
      (terraform_zone_stanza zone_url) with
  | (c, some e) => (c, some e)
  | (c, none) =>
    match writeStage (fun g => terraform_CNAME_record_set g zone_url)
        (innerGroups "CNAME".data (group_records_by_type_name godaddy_records)) c with
    | (c2, some e) => (c2, some e)
    | (c2, none) =>
      match writeStage (fun g => terraform_MX_record_set g zone_url)
          (innerGroups "MX".data (group_records_by_type_name godaddy_records)) c2 with
      | (c3, some e) => (c3, some e)
      | (c3, none) =>
        writeStage (fun g => terraform_TXT_record_set g zone_url)
          (innerGroups "TXT".data (group_records_by_type_name godaddy_records)) c3

/-- Number of occurrences of `pat` as a substring (counted at every starting
position). -/
def countSubstr (pat : Str) : Str → Nat
  | [] => 0
  | c :: t => (if pat.isPrefixOf (c :: t) then 1 else 0) + countSubstr pat t

/-! ### Lemmas about the CPython set model -/

lemma mem_of_getElem_opt {α : Type} {l : List α} {i : Nat} {a : α} (h : l[i]? = some a) :
    a ∈ l := by
  obtain ⟨hlt, he⟩ := List.getElem?_eq_some_iff.mp h
  have h4 := List.getElem_mem hlt
  rwa [he] at h4

lemma mem_set_self {α : Type} {l : List α} {i : Nat} (v : α) (h : i < l.length) :
    v ∈ l.set i v := by
  have h3 : (l.set i v)[i]? = some v := by
    rw [List.getElem?_set_self']
    simp [List.getElem?_eq_getElem h]
  obtain ⟨hlt, he⟩ := List.getElem?_eq_some_iff.mp h3
  have h4 := List.getElem_mem hlt
  rwa [he] at h4

lemma mem_set_of_ne {α : Type} {l : List α} {s : Nat} {a v : α}
    (h : a ∈ l) (hne : l[s]? ≠ some a) : a ∈ l.set s v := by
  obtain ⟨j, hj, he⟩ := List.mem_iff_getElem.mp h
  have hjs : j ≠ s := by
    intro heq
    exact hne (by rw [← heq, List.getElem?_eq_getElem hj, he])
  have h2 : (l.set s v)[j]? = l[j]? := List.getElem?_set_ne (Ne.symm hjs)
  exact mem_of_getElem_opt (by rw [h2, List.getElem?_eq_getElem hj, he])

lemma scanProbes_unused {t : List (Option Nat)} {x : Nat} :
    ∀ {k i s : Nat}, scanProbes t x i k = .unused s → t[s]? = some none := by
  intro k
  induction k with
  | zero =>
    intro i s h
    cases ht : t[i]? with
    | none => simp [scanProbes, ht] at h
    | some o =>
      cases o with
      | none =>
        simp [scanProbes, ht] at h
        exact h ▸ ht
      | some y =>
        by_cases hy : y = x <;> simp [scanProbes, ht, hy] at h
  | succ k ih =>
    intro i s h
    cases ht : t[i]? with
    | none => simp [scanProbes, ht] at h
    | some o =>
      cases o with
      | none =>
        simp [scanProbes, ht] at h
        exact h ▸ ht
      | some y =>
        by_cases hy : y = x
        · simp [scanProbes, ht, hy] at h
        · simp only [scanProbes, ht, if_neg hy] at h
          exact ih h

lemma setAddLoop_unused {t : List (Option Nat)} {x : Nat} :
    ∀ {fuel perturb i s : Nat}, setAddLoop t x fuel perturb i = some s → t[s]? = some none := by
  intro fuel
  induction fuel with
  | zero => intro p i s h; simp [setAddLoop] at h
  | succ fuel ih =>
    intro p i s h
    rw [setAddLoop] at h
    cases hs : scanProbes t x i (if i + 9 ≤ t.length - 1 then 9 else 0) with
    | unused u =>
      rw [hs] at h
      simp at h
      exact h ▸ scanProbes_unused hs
    | active => rw [hs] at h; simp at h
    | miss => rw [hs] at h; exact ih h

lemma scanClean_unused {t : List (Option Nat)} :
    ∀ {k i s : Nat}, scanClean t i k = some s → t[s]? = some none := by
  intro k
  induction k with
  | zero =>
    intro i s h
    cases ht : t[i]? with
    | none => simp [scanClean, ht] at h
    | some o =>
      cases o with
      | none =>
        simp [scanClean, ht] at h
        exact h ▸ ht
      | some y => simp [scanClean, ht] at h
  | succ k ih =>
    intro i s h
    cases ht : t[i]? with
    | none => simp [scanClean, ht] at h
    | some o =>
      cases o with
      | none =>
        simp [scanClean, ht] at h
        exact h ▸ ht
      | some y =>
        simp only [scanClean, ht] at h
        exact ih h

lemma cleanLoop_unused {t : List (Option Nat)} {y : Nat} :
    ∀ {fuel perturb i s : Nat}, cleanLoop t y fuel perturb i = some s → t[s]? = some none := by
  intro fuel
  induction fuel with
  | zero => intro p i s h; simp [cleanLoop] at h
  | succ fuel ih =>
    intro p i s h
    rw [cleanLoop] at h
    cases hs : scanClean t i (if i + 9 ≤ t.length - 1 then 9 else 0) with
    | some u =>
      rw [hs] at h
      simp at h
      exact h ▸ scanClean_unused hs
    | none => rw [hs] at h; exact ih h

lemma scanProbes_self {t : List (Option Nat)} {x i : Nat} (h : t[i]? = some none) (k : Nat) :
    scanProbes t x i k = .unused i := by
  cases k <;> simp [scanProbes, h]

lemma scanClean_self {t : List (Option Nat)} {i : Nat} (h : t[i]? = some none) (k : Nat) :
    scanClean t i k = some i := by
  cases k <;> simp [scanClean, h]

lemma setAddLoop_self {t : List (Option Nat)} {x p i fuel : Nat}
    (h : t[i]? = some none) (hf : fuel ≠ 0) : setAddLoop t x fuel p i = some i := by
  cases fuel with
  | zero => exact absurd rfl hf
  | succ fuel => rw [setAddLoop, scanProbes_self h]

lemma cleanLoop_self {t : List (Option Nat)} {y p i fuel : Nat}
    (h : t[i]? = some none) (hf : fuel ≠ 0) : cleanLoop t y fuel p i = some i := by
  cases fuel with
  | zero => exact absurd rfl hf
  | succ fuel => rw [cleanLoop, scanClean_self h]

lemma setInsertClean_mem {t : List (Option Nat)} {y z : Nat} (h : some z ∈ t) :
    some z ∈ setInsertClean t y := by
  unfold setInsertClean
  cases hc : cleanLoop t y (t.length * 16 + 64) y (y % t.length) with
  | none => exact h
  | some s =>
    have hs := cleanLoop_unused hc
    exact mem_set_of_ne h (by rw [hs]; simp)

lemma setInsertClean_self {t : List (Option Nat)} {y : Nat}
    (h : t[y % t.length]? = some none) : some y ∈ setInsertClean t y := by
  unfold setInsertClean
  rw [cleanLoop_self h (by omega)]
  exact mem_set_self _ (List.getElem?_eq_some_iff.mp h).1

lemma growSize_pos (m : Nat) : ∀ (cur fuel : Nat), 0 < cur → 0 < growSize m cur fuel := by
  intro cur fuel
  induction fuel generalizing cur with
  | zero => intro h; simpa [growSize] using h
  | succ fuel ih =>
    intro h
    unfold growSize
    split
    · exact ih _ (by omega)
    · exact h

lemma foldl_clean_nonempty {L : List Nat} :
    ∀ {t : List (Option Nat)}, (∃ z, some z ∈ t) → ∃ z, some z ∈ L.foldl setInsertClean t := by
  induction L with
  | nil => intro t h; exact h
  | cons a L ih =>
    intro t h
    obtain ⟨z, hz⟩ := h
    exact ih ⟨z, setInsertClean_mem hz⟩

lemma setMaybeResize_nonempty {t : List (Option Nat)} (h : ∃ z, some z ∈ t) :
    ∃ z, some z ∈ setMaybeResize t := by
  unfold setMaybeResize
  split
  · obtain ⟨z, hz⟩ := h
    have hzL : z ∈ t.filterMap id := List.mem_filterMap.mpr ⟨some z, hz, rfl⟩
    cases hL : t.filterMap id with
    | nil => rw [hL] at hzL; simp at hzL
    | cons a rest =>
      rw [List.foldl_cons]
      apply foldl_clean_nonempty
      refine ⟨a, ?_⟩
      have hn : 0 < growSize (setFill t * 4) 8 64 := growSize_pos _ 8 64 (by omega)
      apply setInsertClean_self
      rw [List.length_replicate, List.getElem?_replicate]
      simp [Nat.mod_lt a hn]
  · exact h

lemma setAddEntry_nonempty {t : List (Option Nat)} {x : Nat} (h : ∃ z, some z ∈ t) :
    ∃ z, some z ∈ setAddEntry t x := by
  unfold setAddEntry
  cases hc : setAddLoop t x (t.length * 16 + 64) x (x % t.length) with
  | none => exact h
  | some s =>
    apply setMaybeResize_nonempty
    have hs := setAddLoop_unused hc
    exact ⟨x, mem_set_self _ (List.getElem?_eq_some_iff.mp hs).1⟩

lemma setAddEntry_of_slot_none {t : List (Option Nat)} {x : Nat}
    (h : t[x % t.length]? = some none) : ∃ z, some z ∈ setAddEntry t x := by
  unfold setAddEntry
  rw [setAddLoop_self h (by omega)]
  exact setMaybeResize_nonempty ⟨x, mem_set_self _ (List.getElem?_eq_some_iff.mp h).1⟩

lemma foldl_setAddEntry_nonempty {L : List Nat} :
    ∀ {t : List (Option Nat)}, (∃ z, some z ∈ t) → ∃ z, some z ∈ L.foldl setAddEntry t := by
  induction L with
  | nil => intro t h; exact h
  | cons a L ih =>
    intro t h
    rw [List.foldl_cons]
    exact ih (setAddEntry_nonempty h)

lemma pySet_nonempty {l : List Nat} (h : l ≠ []) : ∃ z, some z ∈ pySet l := by
  unfold pySet
  cases l with
  | nil => exact absurd rfl h
  | cons x rest =>
    rw [List.foldl_cons]
    have hbase : ∃ z, some z ∈ setAddEntry (List.replicate 8 (none : Option Nat)) x := by
      apply setAddEntry_of_slot_none
      rw [List.length_replicate, List.getElem?_replicate]
      simp [Nat.mod_lt x (by omega : (0:Nat) < 8)]
    exact foldl_setAddEntry_nonempty hbase

lemma setInsertClean_subset {t : List (Option Nat)} {y : Nat} {a : Option Nat}
    (h : a ∈ setInsertClean t y) : a ∈ t ∨ a = some y := by
  unfold setInsertClean at h
  cases hc : cleanLoop t y (t.length * 16 + 64) y (y % t.length) with
  | none => rw [hc] at h; exact Or.inl h
  | some s =>
    rw [hc] at h
    exact List.mem_or_eq_of_mem_set h

lemma foldl_clean_subset {L : List Nat} :
    ∀ {t : List (Option Nat)} {a : Option Nat},
      a ∈ L.foldl setInsertClean t → a ∈ t ∨ ∃ z ∈ L, a = some z := by
  induction L with
  | nil => intro t a h; exact Or.inl h
  | cons b L ih =>
    intro t a h
    rw [List.foldl_cons] at h
    rcases ih h with h2 | h2
    · rcases setInsertClean_subset h2 with h3 | h3
      · exact Or.inl h3
      · exact Or.inr ⟨b, by simp, h3⟩
    · obtain ⟨z, hz, he⟩ := h2
      exact Or.inr ⟨z, by simp [hz], he⟩

lemma setMaybeResize_subset {t : List (Option Nat)} {z : Nat}
    (h : some z ∈ setMaybeResize t) : some z ∈ t := by
  unfold setMaybeResize at h
  split at h
  · rcases foldl_clean_subset h with h2 | ⟨w, hw, he⟩
    · have := List.eq_of_mem_replicate h2
      simp at this
    · obtain ⟨a, hat, haz⟩ := List.mem_filterMap.mp hw
      simp only [id] at haz
      cases he
      exact haz ▸ hat
  · exact h

lemma setAddEntry_subset {t : List (Option Nat)} {x z : Nat}
    (h : some z ∈ setAddEntry t x) : some z ∈ t ∨ z = x := by
  unfold setAddEntry at h
  cases hc : setAddLoop t x (t.length * 16 + 64) x (x % t.length) with
  | none => rw [hc] at h; exact Or.inl h
  | some s =>
    rw [hc] at h
    simp only at h
    have h2 := setMaybeResize_subset h
    rcases List.mem_or_eq_of_mem_set h2 with h3 | h3
    · exact Or.inl h3
    · simp at h3
      exact Or.inr h3

lemma pySet_subset {l : List Nat} {z : Nat} (h : some z ∈ pySet l) : z ∈ l := by
  have H : ∀ (L : List Nat) (t : List (Option Nat)),
      some z ∈ L.foldl setAddEntry t → some z ∈ t ∨ z ∈ L := by
    intro L
    induction L with
    | nil => intro t h2; exact Or.inl h2
    | cons b L ih =>
      intro t h2
      rw [List.foldl_cons] at h2
      rcases ih _ h2 with h3 | h3
      · rcases setAddEntry_subset h3 with h4 | h4
        · exact Or.inl h4
        · exact Or.inr (by simp [h4])
      · exact Or.inr (by simp [h3])
  rcases H l (List.replicate 8 none) h with h2 | h2
  · have := List.eq_of_mem_replicate h2
    simp at this
  · exact h2

lemma pySetList_subset {l : List Nat} {z : Nat} (h : z ∈ pySetList l) : z ∈ l := by
  unfold pySetList at h
  obtain ⟨a, hat, haz⟩ := List.mem_filterMap.mp h
  simp only [id] at haz
  exact pySet_subset (haz ▸ hat)

lemma pySetList_ne_nil {l : List Nat} (h : l ≠ []) : pySetList l ≠ [] := by
  obtain ⟨z, hz⟩ := pySet_nonempty h
  intro hnil
  have hzm : z ∈ pySetList l := List.mem_filterMap.mpr ⟨some z, hz, rfl⟩
  rw [hnil] at hzm
  simp at hzm

lemma get_ttl_mem {godaddy_records : List GodaddyRecord} (h : godaddy_records ≠ []) :
    ∃ t, get_ttl godaddy_records = some t ∧ t ∈ godaddy_records.map (fun r => r.ttl) := by
  have hmap : godaddy_records.map (fun r => r.ttl) ≠ [] := by
    simpa using h
  have hne := pySetList_ne_nil hmap
  unfold get_ttl
  cases hl : pySetList (godaddy_records.map fun r => r.ttl) with
  | nil => exact absurd hl hne
  | cons a rest =>
    refine ⟨a, rfl, ?_⟩
    have : a ∈ pySetList (godaddy_records.map fun r => r.ttl) := by rw [hl]; simp
    exact pySetList_subset this

/-- `len(set(l)) > 1` exactly when `l` has two different elements. -/
lemma one_lt_dedup_length_iff {l : List Nat} :
    1 < l.dedup.length ↔ ∃ a ∈ l, ∃ b ∈ l, a ≠ b := by
  constructor
  · intro h
    match hd : l.dedup with
    | [] => rw [hd] at h; simp at h
    | [a] => rw [hd] at h; simp at h
    | a :: b :: rest =>
      have hnd := l.nodup_dedup
      rw [hd] at hnd
      have hab : a ≠ b := by
        intro he
        rw [List.nodup_cons] at hnd
        exact hnd.1 (by simp [he])
      have ha : a ∈ l := List.mem_dedup.mp (by rw [hd]; simp)
      have hb : b ∈ l := List.mem_dedup.mp (by rw [hd]; simp)
      exact ⟨a, ha, b, hb, hab⟩
  · rintro ⟨a, ha, b, hb, hab⟩
    by_contra hle
    push_neg at hle
    have ha2 : a ∈ l.dedup := List.mem_dedup.mpr ha
    have hb2 : b ∈ l.dedup := List.mem_dedup.mpr hb
    match hd : l.dedup with
    | [] => rw [hd] at ha2; simp at ha2
    | [c] =>
      rw [hd] at ha2 hb2
      simp at ha2 hb2
      exact hab (ha2.trans hb2.symm)
    | c :: d :: rest => rw [hd] at hle; simp at hle

/-! ### Lemmas about the grouping dictionaries -/

lemma lookupA_addRecord {K R : Type} [DecidableEq K] (acc : List (K × List R)) (k k2 : K) (r : R) :
    lookupA k (addRecord acc k2 r) =
      if k2 = k then some ((lookupA k acc).getD [] ++ [r]) else lookupA k acc := by
  induction acc with
  | nil => by_cases h : k2 = k <;> simp [addRecord, lookupA, h]
  | cons p t ih =>
    obtain ⟨k3, vs⟩ := p
    by_cases h32 : k3 = k2
    · subst h32
      by_cases hk : k3 = k <;> simp [addRecord, lookupA, hk]
    · by_cases hk3 : k3 = k
      · subst hk3
        have hk2 : k2 ≠ k3 := fun he => h32 he.symm
        simp [addRecord, lookupA, h32, hk2]
      · simp [addRecord, lookupA, h32, hk3, ih]

lemma lookupA_groupFold {K R : Type} [DecidableEq K] (key : R → K) :
    ∀ (l : List R) (acc : List (K × List R)) (k : K),
      lookupA k (l.foldl (fun a r => addRecord a (key r) r) acc) =
        match lookupA k acc with
        | some v => some (v ++ l.filter (fun r => decide (key r = k)))
        | none =>
          if l.any (fun r => decide (key r = k)) then
            some (l.filter (fun r => decide (key r = k)))
          else none := by
  intro l
  induction l with
  | nil =>
    intro acc k
    cases hacc : lookupA k acc <;> simp [hacc]
  | cons r0 l ih =>
    intro acc k
    rw [List.foldl_cons, ih, lookupA_addRecord]
    by_cases hk : key r0 = k
    · cases hacc : lookupA k acc <;> simp [hk, hacc, List.filter_cons]
    · cases hacc : lookupA k acc <;> simp [hk, hacc, List.filter_cons]

lemma lookupA_groupByKey {K R : Type} [DecidableEq K] (key : R → K) (l : List R) (k : K) :
    lookupA k (groupByKey key l) =
      if l.any (fun r => decide (key r = k)) then
        some (l.filter (fun r => decide (key r = k)))
      else none := by
  unfold groupByKey
  rw [lookupA_groupFold]
  simp [lookupA]

lemma lookupA_groupByKey_eq_filter {K R : Type} [DecidableEq K] {key : R → K} {l : List R}
    {k : K} {g : List R} (h : lookupA k (groupByKey key l) = some g) :
    g = l.filter (fun r => decide (key r = k)) := by
  rw [lookupA_groupByKey] at h
  split at h
  · exact (Option.some.injEq _ _ ▸ h).symm
  · simp at h

lemma lookupA_groupByKey_of_mem {K R : Type} [DecidableEq K] {key : R → K} {l : List R}
    {r : R} (h : r ∈ l) :
    lookupA (key r) (groupByKey key l) = some (l.filter (fun s => decide (key s = key r))) := by
  rw [lookupA_groupByKey, if_pos]
  rw [List.any_eq_true]
  exact ⟨r, h, by simp⟩

lemma lookupA_eq_none_iff {K V : Type} [DecidableEq K] (k : K) (l : List (K × V)) :
    lookupA k l = none ↔ k ∉ l.map Prod.fst := by
  induction l with
  | nil => simp [lookupA]
  | cons p t ih =>
    obtain ⟨k2, v⟩ := p
    by_cases h : k2 = k
    · simp [lookupA, h]
    · simp only [lookupA, if_neg h, ih, List.map_cons, List.mem_cons]
      push_neg
      constructor
      · intro h2
        exact ⟨fun he => h he.symm, h2⟩
      · exact fun h2 => h2.2

lemma keys_addRecord {K R : Type} [DecidableEq K] (acc : List (K × List R)) (k2 : K) (r : R) :
    (addRecord acc k2 r).map Prod.fst =
      if (lookupA k2 acc).isSome then acc.map Prod.fst else acc.map Prod.fst ++ [k2] := by
  induction acc with
  | nil => simp [addRecord, lookupA]
  | cons p t ih =>
    obtain ⟨k3, vs⟩ := p
    by_cases h : k3 = k2
    · subst h; simp [addRecord, lookupA]
    · simp only [addRecord, if_neg h, List.map_cons, lookupA, ih]
      split <;> simp

lemma keys_nodup_groupFold {K R : Type} [DecidableEq K] (key : R → K) :
    ∀ (l : List R) (acc : List (K × List R)), (acc.map Prod.fst).Nodup →
      ((l.foldl (fun a r => addRecord a (key r) r) acc).map Prod.fst).Nodup := by
  intro l
  induction l with
  | nil => intro acc h; exact h
  | cons r0 l ih =>
    intro acc h
    rw [List.foldl_cons]
    apply ih
    rw [keys_addRecord]
    split
    · exact h
    · rename_i hnone
      rw [Option.not_isSome_iff_eq_none] at hnone
      rw [lookupA_eq_none_iff] at hnone
      simp [List.nodup_append, h, hnone]

lemma keys_nodup_groupByKey {K R : Type} [DecidableEq K] (key : R → K) (l : List R) :
    ((groupByKey key l).map Prod.fst).Nodup := by
  unfold groupByKey
  exact keys_nodup_groupFold key l [] (by simp)

lemma joinVals_addRecord {K R : Type} [DecidableEq K] (acc : List (K × List R)) (k2 : K) (r : R) :
    (((addRecord acc k2 r).map Prod.snd).flatten).Perm ((acc.map Prod.snd).flatten ++ [r]) := by
  induction acc with
  | nil => simp [addRecord]
  | cons p t ih =>
    obtain ⟨k3, vs⟩ := p
    by_cases h : k3 = k2
    · subst h
      simp only [addRecord, if_pos rfl, List.map_cons, List.flatten_cons]
      have h1 : ([r] ++ (t.map Prod.snd).flatten).Perm ((t.map Prod.snd).flatten ++ [r]) :=
        List.perm_append_comm
      have h2 := h1.append_left vs
      simpa [List.append_assoc] using h2
    · simp only [addRecord, if_neg h, List.map_cons, List.flatten_cons]
      have h2 := ih.append_left vs
      refine h2.trans ?_
      rw [List.append_assoc]

lemma joinVals_groupFold {K R : Type} [DecidableEq K] (key : R → K) :
    ∀ (l : List R) (acc : List (K × List R)),
      ((((l.foldl (fun a r => addRecord a (key r) r) acc).map Prod.snd).flatten)).Perm
        ((acc.map Prod.snd).flatten ++ l) := by
  intro l
  induction l with
  | nil => intro acc; simp
  | cons r0 l ih =>
    intro acc
    rw [List.foldl_cons]
    refine (ih _).trans ?_
    have h1 := (joinVals_addRecord acc (key r0) r0).append_right l
    refine h1.trans ?_
    rw [List.append_assoc]
    simp

lemma joinVals_groupByKey {K R : Type} [DecidableEq K] (key : R → K) (l : List R) :
    ((((groupByKey key l).map Prod.snd).flatten)).Perm l := by
  unfold groupByKey
  have h := joinVals_groupFold key l []
  simpa using h

lemma lookupA_map {K V W : Type} [DecidableEq K] (f : V → W) (l : List (K × V)) (k : K) :
    lookupA k (l.map (fun p => (p.1, f p.2))) = (lookupA k l).map f := by
  induction l with
  | nil => simp [lookupA]
  | cons p t ih =>
    obtain ⟨k2, v⟩ := p
    by_cases h : k2 = k <;> simp [lookupA, h, ih]

lemma flatten_perm_of_forall {α β : Type} (f g : β → List α) :
    ∀ (l : List β), (∀ b ∈ l, (f b).Perm (g b)) →
      ((l.map f).flatten).Perm ((l.map g).flatten) := by
  intro l
  induction l with
  | nil => intro _; simp
  | cons b l ih =>
    intro h
    simp only [List.map_cons, List.flatten_cons]
    exact (h b (by simp)).append (ih (fun c hc => h c (by simp [hc])))

/-! ### Lemmas about the MX stable sort -/

lemma filter_orderedInsert (p : Nat) (a : Nat × Str) (l : List (Nat × Str)) :
    (List.orderedInsert mxLe a l).filter (fun x => decide (x.1 = p)) =
      if a.1 = p then a :: l.filter (fun x => decide (x.1 = p))
      else l.filter (fun x => decide (x.1 = p)) := by
  induction l with
  | nil => by_cases h : a.1 = p <;> simp [List.orderedInsert, List.filter_cons, h]
  | cons b t ih =>
    by_cases hab : mxLe a b
    · simp only [List.orderedInsert, if_pos hab]
      by_cases h : a.1 = p <;> simp [List.filter_cons, h]
    · have hb : b.1 < a.1 := by
        have := hab
        unfold mxLe at this
        omega
      simp only [List.orderedInsert, if_neg hab, List.filter_cons]
      by_cases hbp : b.1 = p
      · have hap : a.1 ≠ p := by omega
        simp [hbp, ih, hap]
      · simp [hbp, ih]

lemma filter_insertionSort (p : Nat) (l : List (Nat × Str)) :
    (List.insertionSort mxLe l).filter (fun x => decide (x.1 = p)) =
      l.filter (fun x => decide (x.1 = p)) := by
  induction l with
  | nil => rfl
  | cons a t ih =>
    simp only [List.insertionSort]
    rw [filter_orderedInsert]
    by_cases h : a.1 = p <;> simp [List.filter_cons, h, ih]

/-! ### Lemmas about the TXT chunk loop -/

lemma txtChunksGo_of_le {s : Str} (h : s.length ≤ 255) :
    ∀ fuel, txtChunksGo fuel s = s := by
  intro fuel
  cases fuel with
  | zero => rfl
  | succ fuel => rw [txtChunksGo, if_pos h]

lemma txtChunksGo_fuel {f1 : Nat} :
    ∀ (s : Str) (f2 : Nat), s.length ≤ f1 → s.length ≤ f2 →
      txtChunksGo f1 s = txtChunksGo f2 s := by
  induction f1 with
  | zero =>
    intro s f2 h1 _
    have hs : s = [] := List.length_eq_zero.mp (by omega)
    subst hs
    rw [txtChunksGo_of_le (by simp), txtChunksGo_of_le (by simp)]
  | succ f1 ih =>
    intro s f2 h1 h2
    by_cases hle : s.length ≤ 255
    · rw [txtChunksGo_of_le hle, txtChunksGo_of_le hle]
    · cases f2 with
      | zero => omega
      | succ f2 =>
        rw [txtChunksGo, txtChunksGo, if_neg hle, if_neg hle]
        have hd : (s.drop 255).length = s.length - 255 := by simp
        rw [ih (s.drop 255) f2 (by omega) (by omega)]

lemma txtChunks_of_le {s : Str} (h : s.length ≤ 255) : txtChunks s = s := by
  rw [txtChunks, txtChunksGo_of_le h]

lemma txtChunks_of_gt {s : Str} (h : 255 < s.length) :
    txtChunks s = s.take 255 ++ txtDelim ++ txtChunks (s.drop 255) := by
  unfold txtChunks
  cases hl : s.length with
  | zero => omega
  | succ n =>
    rw [txtChunksGo, if_neg (by omega)]
    have hd : (s.drop 255).length = s.length - 255 := by simp
    rw [txtChunksGo_fuel (s.drop 255) (s.drop 255).length (by omega) (by omega)]

/-! ### Lemmas about the export orchestration -/

lemma writeStage_extends (render : List GodaddyRecord → Except PyErr Str) :
    ∀ (groups : List (List GodaddyRecord)) (content : Str),
      ∃ rest, (writeStage render groups content).1 = content ++ rest := by
  intro groups
  induction groups with
  | nil => intro c; exact ⟨[], by simp [writeStage]⟩
  | cons g rest ih =>
    intro c
    cases hr : render g with
    | error e => exact ⟨[], by simp [writeStage, hr]⟩
    | ok s =>
      obtain ⟨r2, hr2⟩ := ih (c ++ s)
      exact ⟨s ++ r2, by simp [writeStage, hr, hr2]⟩

lemma terraform_zone_stanza_ne_nil (zone_url : Str) : terraform_zone_stanza zone_url ≠ [] := by
  have h : "\nresource \"google_dns_managed_zone\" \"".data
      = '\n' :: "resource \"google_dns_managed_zone\" \"".data := rfl
  unfold terraform_zone_stanza
  rw [h]
  simp

lemma export_content_start (godaddy_records : List GodaddyRecord) (zone_url : Str) :
    ∃ rest, (export_godaddy_dns_to_tf_file godaddy_records zone_url).1 =
      terraform_zone_stanza zone_url ++ rest := by
  unfold export_godaddy_dns_to_tf_file
  obtain ⟨r1, h1⟩ := writeStage_extends (fun g => terraform_A_record_set g zone_url)
    (innerGroups "A".data (group_records_by_type_name godaddy_records))
    (terraform_zone_stanza zone_url)
  cases hA : writeStage (fun g => terraform_A_record_set g zone_url)
      (innerGroups "A".data (group_records_by_type_name godaddy_records))
      (terraform_zone_stanza zone_url) with
  | mk c1 e1 =>
    rw [hA] at h1
    simp only at h1
    cases e1 with
    | some e => exact ⟨r1, h1⟩
    | none =>
      dsimp only
      obtain ⟨r2, h2⟩ := writeStage_extends (fun g => terraform_CNAME_record_set g zone_url)
        (innerGroups "CNAME".data (group_records_by_type_name godaddy_records)) c1
      cases hC : writeStage (fun g => terraform_CNAME_record_set g zone_url)
          (innerGroups "CNAME".data (group_records_by_type_name godaddy_records)) c1 with
      | mk c2 e2 =>
        rw [hC] at h2
        simp only at h2
        rw [h1] at h2
        cases e2 with
        | some e => exact ⟨r1 ++ r2, by dsimp only; rw [h2, List.append_assoc]⟩
        | none =>
          dsimp only
          obtain ⟨r3, h3⟩ := writeStage_extends (fun g => terraform_MX_record_set g zone_url)
            (innerGroups "MX".data (group_records_by_type_name godaddy_records)) c2
          cases hM : writeStage (fun g => terraform_MX_record_set g zone_url)
              (innerGroups "MX".data (group_records_by_type_name godaddy_records)) c2 with
          | mk c3 e3 =>
            rw [hM] at h3
            simp only at h3
            rw [h2] at h3
            cases e3 with
            | some e => exact ⟨r1 ++ r2 ++ r3, by dsimp only; rw [h3]; simp [List.append_assoc]⟩
            | none =>
              dsimp only
              obtain ⟨r4, h4⟩ := writeStage_extends (fun g => terraform_TXT_record_set g zone_url)
                (innerGroups "TXT".data (group_records_by_type_name godaddy_records)) c3
              refine ⟨r1 ++ r2 ++ r3 ++ r4, ?_⟩
              have h5 : (writeStage (fun g => terraform_TXT_record_set g zone_url)
                  (innerGroups "TXT".data (group_records_by_type_name godaddy_records)) c3).1 =
                  terraform_zone_stanza zone_url ++ (r1 ++ r2 ++ r3 ++ r4) := by
                rw [h4, h3]
                simp [List.append_assoc]
              exact h5

/-! ### Lemmas about the sanitizers -/

lemma replaceChar_eq_flatMap (c : Char) (rep : Str) (s : Str) :
    replaceChar c rep s = s.flatMap (fun a => if a = c then rep else [a]) := by
  induction s with
  | nil => rfl
  | cons a t ih => simp [replaceChar, ih, List.flatMap_cons]

lemma replaceChar_append (c : Char) (rep : Str) (s t : Str) :
    replaceChar c rep (s ++ t) = replaceChar c rep s ++ replaceChar c rep t := by
  induction s with
  | nil => rfl
  | cons a s ih => simp [replaceChar, ih]

lemma sanitize_eq_flatMap (name : Str) :
    sanitize_tf_resource_name name =
      name.flatMap (fun c => if c = '.' then "-".data else if c = '_' then [] else [c]) := by
  unfold sanitize_tf_resource_name
  induction name with
  | nil => rfl
  | cons a t ih =>
    simp only [replaceChar, replaceChar_append, List.flatMap_cons]
    rw [ih]
    by_cases h1 : a = '.'
    · subst h1; simp [replaceChar]
    · by_cases h2 : a = '_' <;> simp [replaceChar, h1, h2]

lemma mem_replaceChar {c : Char} {rep : Str} {s : Str} {a : Char}
    (h : a ∈ replaceChar c rep s) : a ∈ rep ∨ (a ∈ s ∧ a ≠ c) := by
  induction s with
  | nil => simp [replaceChar] at h
  | cons b t ih =>
    simp only [replaceChar] at h
    rcases List.mem_append.mp h with h2 | h2
    · by_cases hb : b = c
      · rw [if_pos hb] at h2
        exact Or.inl h2
      · rw [if_neg hb] at h2
        simp at h2
        exact Or.inr ⟨by simp [h2], h2 ▸ hb⟩
    · rcases ih h2 with h3 | ⟨h3, h4⟩
      · exact Or.inl h3
      · exact Or.inr ⟨by simp [h3], h4⟩

lemma replaceChar_of_not_mem {c : Char} {rep : Str} {s : Str} (h : c ∉ s) :
    replaceChar c rep s = s := by
  induction s with
  | nil => rfl
  | cons a t ih =>
    have ha : a ≠ c := fun he => h (by simp [he])
    simp only [replaceChar, if_neg ha, List.singleton_append, List.cons.injEq, true_and]
    exact ih (fun hm => h (by simp [hm]))

lemma head?_dropWhile_not {p : Char → Bool} {l : Str} {a : Char}
    (h : (l.dropWhile p).head? = some a) : p a = false := by
  induction l with
  | nil => simp [List.dropWhile] at h
  | cons x xs ih =>
    rw [List.dropWhile_cons] at h
    by_cases hp : p x
    · simp only [if_pos hp] at h
      exact ih h
    · simp only [if_neg hp] at h
      simp at h
      subst h
      simpa using hp

lemma dropWhile_eq_self_of_head {p : Char → Bool} {l : Str}
    (h : ∀ a, l.head? = some a → p a = false) : l.dropWhile p = l := by
  cases l with
  | nil => rfl
  | cons a t =>
    rw [List.dropWhile_cons, if_neg]
    simp [h a rfl]

lemma rstripDots_getLast_ne {z : Str} {c : Char} (h : (rstripDots z).getLast? = some c) :
    c ≠ '.' := by
  unfold rstripDots at h
  rw [List.getLast?_reverse] at h
  have h2 := head?_dropWhile_not h
  simpa using h2

lemma rstripDots_of_no_dot {s : Str} (h : '.' ∉ s) : rstripDots s = s := by
  unfold rstripDots
  rw [dropWhile_eq_self_of_head, List.reverse_reverse]
  intro a ha
  have h2 : a ∈ s := by
    have := List.mem_of_mem_head? ha
    simpa using this
  have : a ≠ '.' := fun he => h (he ▸ h2)
  simpa using this

lemma not_dot_mem_zone_url_to_name (z : Str) : '.' ∉ zone_url_to_name z := by
  intro h
  unfold zone_url_to_name at h
  rcases mem_replaceChar h with h2 | ⟨_, h3⟩
  · simp at h2
  · exact h3 rfl

lemma getLast?_replaceDots {s : Str} {c : Char} (hc : s.getLast? = some c) (hne : c ≠ '.') :
    (replaceChar '.' "-".data s).getLast? = some c := by
  induction s with
  | nil => simp at hc
  | cons a t ih =>
    cases t with
    | nil =>
      simp at hc
      subst hc
      simp [replaceChar, hne]
    | cons b t2 =>
      rw [List.getLast?_cons_cons] at hc
      have ih2 := ih hc
      have hstep : replaceChar '.' "-".data (a :: b :: t2) =
          (if a = '.' then "-".data else [a]) ++ replaceChar '.' "-".data (b :: t2) := rfl
      rw [hstep, List.getLast?_append, ih2]
      simp

set_option maxRecDepth 40000

/-! ### Claim theorems -/

/-- C1, counterexample: for a group whose records carry ttls 300 and 600 in
that order, `get_ttl` resolves to 600 — the head of CPython's set iteration
order (600 lands in table slot 0, 300 in slot 4) — not to 300, the first ttl
encountered in group order as the claim states. -/
theorem c1_ttl_first_in_group_counterexample :
    get_ttl [⟨"A".data, "x".data, "1.2.3.4".data, 300, 0⟩,
             ⟨"A".data, "x".data, "5.6.7.8".data, 600, 0⟩] = some 600 ∧
    (⟨"A".data, "x".data, "1.2.3.4".data, 300, 0⟩ : GodaddyRecord).ttl = 300 ∧
    get_ttl [⟨"A".data, "x".data, "1.2.3.4".data, 300, 0⟩,
             ⟨"A".data, "x".data, "5.6.7.8".data, 600, 0⟩] ≠ some 300 := by
  exact ⟨by decide, rfl, by decide⟩

/-- C1 (amended): for every non-empty record group, TTL resolution returns the
head of the distinct-ttl set in CPython set-iteration order — always the ttl
of some record of the group, but not necessarily the first in group order (for
ttls [300, 600] in that order it is 600) — and a warning is emitted if and
only if the group contains more than one distinct ttl value. -/
theorem c1_ttl_pick_and_warning (godaddy_records : List GodaddyRecord)
    (h : godaddy_records ≠ []) :
    (∃ t, get_ttl godaddy_records = some t ∧ t ∈ godaddy_records.map (fun r => r.ttl)) ∧
    (get_ttl_warns godaddy_records = true ↔
      ∃ r ∈ godaddy_records, ∃ s ∈ godaddy_records, r.ttl ≠ s.ttl) := by
  refine ⟨get_ttl_mem h, ?_⟩
  unfold get_ttl_warns
  rw [decide_eq_true_eq, one_lt_dedup_length_iff]
  constructor
  · rintro ⟨a, ha, b, hb, hab⟩
    obtain ⟨r, hr, hra⟩ := List.mem_map.mp ha
    obtain ⟨s, hs, hsb⟩ := List.mem_map.mp hb
    exact ⟨r, hr, s, hs, by rw [hra, hsb]; exact hab⟩
  · rintro ⟨r, hr, s, hs, hne⟩
    exact ⟨r.ttl, List.mem_map_of_mem _ hr, s.ttl, List.mem_map_of_mem _ hs, hne⟩

/-- C1 witness: the amended theorem at the conflicting [300, 600] group. -/
theorem c1_ttl_pick_and_warning_witness :
    (∃ t, get_ttl [⟨"A".data, "x".data, "1.2.3.4".data, 300, 0⟩,
                   ⟨"A".data, "x".data, "5.6.7.8".data, 600, 0⟩] = some t ∧
      t ∈ ([⟨"A".data, "x".data, "1.2.3.4".data, 300, 0⟩,
            ⟨"A".data, "x".data, "5.6.7.8".data, 600, 0⟩] :
              List GodaddyRecord).map (fun r => r.ttl)) ∧
    (get_ttl_warns [⟨"A".data, "x".data, "1.2.3.4".data, 300, 0⟩,
                    ⟨"A".data, "x".data, "5.6.7.8".data, 600, 0⟩] = true ↔
      ∃ r ∈ ([⟨"A".data, "x".data, "1.2.3.4".data, 300, 0⟩,
              ⟨"A".data, "x".data, "5.6.7.8".data, 600, 0⟩] : List GodaddyRecord),
      ∃ s ∈ ([⟨"A".data, "x".data, "1.2.3.4".data, 300, 0⟩,
              ⟨"A".data, "x".data, "5.6.7.8".data, 600, 0⟩] : List GodaddyRecord),
        r.ttl ≠ s.ttl) :=
  c1_ttl_pick_and_warning _ (by decide)

/-- C9: for every non-empty record group, the resolved ttl is the ttl of some
record in the group. -/
theorem c9_ttl_membership (godaddy_records : List GodaddyRecord)
    (h : godaddy_records ≠ []) :
    ∃ t, get_ttl godaddy_records = some t ∧
      t ∈ godaddy_records.map (fun r => r.ttl) :=
  get_ttl_mem h

/-- C9 witness: the theorem at a concrete two-record group. -/
theorem c9_ttl_membership_witness :
    ∃ t, get_ttl [⟨"TXT".data, "@".data, "v1".data, 3600, 0⟩,
                  ⟨"TXT".data, "@".data, "v2".data, 600, 0⟩] = some t ∧
      t ∈ ([⟨"TXT".data, "@".data, "v1".data, 3600, 0⟩,
            ⟨"TXT".data, "@".data, "v2".data, 600, 0⟩] :
              List GodaddyRecord).map (fun r => r.ttl) :=
  c9_ttl_membership _ (by decide)

/-- C5, counterexample: the apex label `"@"` takes priority over the rrdata
branches of `godaddy_to_url`, so in rrdata form with the text-payload flag set
the function returns the zone url, not the label unchanged (and with the flag
clear it does not return `"@."`). -/
theorem c5_apex_rrdata_counterexample :
    godaddy_to_url "@".data "mydomain.com".data true true false = "mydomain.com".data ∧
    godaddy_to_url "@".data "mydomain.com".data true true false ≠ "@".data ∧
    godaddy_to_url "@".data "mydomain.com".data true false false ≠ "@".data ++ ".".data := by
  exact ⟨rfl, by decide, by decide⟩

/-- C5 (amended): the composer returns the zone reference for the label `"@"`
regardless of the remaining flags; for every other label it returns
`label ++ "." ++ zoneref` in non-rrdata form, `label ++ "."` in rrdata form
with the text-payload flag clear, and the label unchanged in rrdata form with
the text-payload flag set. -/
theorem c5_compose_cases (godaddy_attr zone_url : Str)
    (is_rrdatas is_TXT_data use_terraform_var : Bool) :
    (godaddy_attr = "@".data →
      godaddy_to_url godaddy_attr zone_url is_rrdatas is_TXT_data use_terraform_var =
        gddSuffix zone_url use_terraform_var) ∧
    (godaddy_attr ≠ "@".data → is_rrdatas = false →
      godaddy_to_url godaddy_attr zone_url is_rrdatas is_TXT_data use_terraform_var =
        godaddy_attr ++ ".".data ++ gddSuffix zone_url use_terraform_var) ∧
    (godaddy_attr ≠ "@".data → is_rrdatas = true → is_TXT_data = false →
      godaddy_to_url godaddy_attr zone_url is_rrdatas is_TXT_data use_terraform_var =
        godaddy_attr ++ ".".data) ∧
    (godaddy_attr ≠ "@".data → is_rrdatas = true → is_TXT_data = true →
      godaddy_to_url godaddy_attr zone_url is_rrdatas is_TXT_data use_terraform_var =
        godaddy_attr) := by
  refine ⟨?_, ?_, ?_, ?_⟩
  · intro h
    simp [godaddy_to_url, h]
  · rintro h rfl
    simp [godaddy_to_url, h, List.append_assoc]
  · rintro h rfl rfl
    simp [godaddy_to_url, h]
  · rintro h rfl rfl
    simp [godaddy_to_url, h]

/-- C5 witness: the amended theorem at the spec's four sample compositions. -/
theorem c5_compose_cases_witness :
    godaddy_to_url "@".data "mydomain.com".data false false false =
      gddSuffix "mydomain.com".data false ∧
    godaddy_to_url "www".data "mydomain.com".data false false false =
      "www".data ++ ".".data ++ gddSuffix "mydomain.com".data false ∧
    godaddy_to_url "host".data "mydomain.com".data true false false =
      "host".data ++ ".".data ∧
    godaddy_to_url "some text".data "mydomain.com".data true true false =
      "some text".data :=
  ⟨(c5_compose_cases "@".data "mydomain.com".data false false false).1 rfl,
   (c5_compose_cases "www".data "mydomain.com".data false false false).2.1 (by decide) rfl,
   (c5_compose_cases "host".data "mydomain.com".data true false false).2.2.1 (by decide) rfl rfl,
   (c5_compose_cases "some text".data "mydomain.com".data true true false).2.2.2 (by decide) rfl rfl⟩

/-- C3: the CNAME renderer raises `NotImplementedError` for every group of
more than one record, and renders a single-record group successfully, with
that record's own `ttl` field (no TTL-conflict resolution step). -/
theorem c3_cname_cardinality (godaddy_records : List GodaddyRecord) (zone_url : Str) :
    (1 < godaddy_records.length →
      terraform_CNAME_record_set godaddy_records zone_url = .error .notImplementedError) ∧
    (∀ r, godaddy_records = [r] →
      terraform_CNAME_record_set godaddy_records zone_url = .ok (cnameBlock
        (sanitize_tf_resource_name (godaddy_to_url r.name zone_url false false false))
        (godaddy_to_url r.name zone_url false false true)
        (zone_url_to_name zone_url) r.ttl
        (godaddy_to_url r.data zone_url true false true))) := by
  constructor
  · intro h
    cases godaddy_records with
    | nil => simp at h
    | cons a t =>
      cases t with
      | nil => simp at h
      | cons b t2 => rfl
  · rintro r rfl
    rfl

/-- C3 witness: the theorem at a two-record group and at a singleton group. -/
theorem c3_cname_cardinality_witness :
    terraform_CNAME_record_set
      [⟨"CNAME".data, "x".data, "t1".data, 300, 0⟩,
       ⟨"CNAME".data, "x".data, "t2".data, 300, 0⟩] "ex.com".data =
      .error .notImplementedError ∧
    terraform_CNAME_record_set [⟨"CNAME".data, "www".data, "tgt".data, 600, 0⟩]
        "ex.com".data = .ok (cnameBlock
      (sanitize_tf_resource_name (godaddy_to_url "www".data "ex.com".data false false false))
      (godaddy_to_url "www".data "ex.com".data false false true)
      (zone_url_to_name "ex.com".data) 600
      (godaddy_to_url "tgt".data "ex.com".data true false true)) :=
  ⟨(c3_cname_cardinality _ "ex.com".data).1 (by decide),
   (c3_cname_cardinality _ "ex.com".data).2 ⟨"CNAME".data, "www".data, "tgt".data, 600, 0⟩ rfl⟩

/-- C8, counterexample: record-resource sanitization maps `"a_b"` to `"ab"` —
the underscore is deleted (replaced by the empty string), not replaced by a
dash as the claim states. -/
theorem c8_underscore_counterexample :
    sanitize_tf_resource_name "a_b".data = "ab".data ∧
    sanitize_tf_resource_name "a_b".data ≠ "a-b".data :=
  ⟨rfl, by decide⟩

/-- C8 (amended): record-resource-identifier sanitization replaces every `.`
with `-` and deletes every `_`; zone-identifier sanitization replaces every
`.` remaining after stripping trailing dots with `-`. -/
theorem c8_sanitization (name zone_url : Str) :
    sanitize_tf_resource_name name =
      name.flatMap (fun c => if c = '.' then "-".data else if c = '_' then [] else [c]) ∧
    zone_url_to_name zone_url =
      (rstripDots zone_url).flatMap (fun c => if c = '.' then "-".data else [c]) :=
  ⟨sanitize_eq_flatMap name, replaceChar_eq_flatMap '.' "-".data (rstripDots zone_url)⟩

/-- C10, counterexample: the zone string `"a-."` ends in a dot, yet its
identifier `"a-"` ends in `-` — the claim's "never yields an identifier with
a trailing `-`" fails when the zone's own body ends in a dash. -/
theorem c10_trailing_dash_counterexample :
    "a-.".data.getLast? = some '.' ∧
    zone_url_to_name "a-.".data = "a-".data ∧
    (zone_url_to_name "a-.".data).getLast? = some '-' :=
  ⟨rfl, rfl, rfl⟩

/-- C10 (amended): zone-identifier sanitization strips all trailing dots
before replacing the remaining dots with dashes, the stripped result never
ends in a dot, the final character survives the replacement whenever it is
neither `.` nor `-` (so a stripped trailing dot never produces a trailing
dash; one can only come from the zone body itself), and the function is
idempotent on its own output. -/
theorem c10_zone_trailing (zone_url : Str) :
    zone_url_to_name zone_url = replaceChar '.' "-".data (rstripDots zone_url) ∧
    (∀ c, (rstripDots zone_url).getLast? = some c → c ≠ '.') ∧
    (∀ c, (rstripDots zone_url).getLast? = some c → c ≠ '-' →
      (zone_url_to_name zone_url).getLast? = some c) ∧
    ((rstripDots zone_url).getLast? ≠ some '-' →
      (zone_url_to_name zone_url).getLast? ≠ some '-') ∧
    zone_url_to_name (zone_url_to_name zone_url) = zone_url_to_name zone_url := by
  refine ⟨rfl, fun c hc => rstripDots_getLast_ne hc, ?_, ?_, ?_⟩
  · intro c hc hne
    exact getLast?_replaceDots hc (rstripDots_getLast_ne hc)
  · intro hne
    cases hl : (rstripDots zone_url).getLast? with
    | none =>
      have hnil : rstripDots zone_url = [] := by
        cases he : rstripDots zone_url with
        | nil => rfl
        | cons a t =>
          rw [he] at hl
          simp [List.getLast?_eq_getLast] at hl
      unfold zone_url_to_name
      rw [hnil]
      simp [replaceChar]
    | some c =>
      have hc : c ≠ '-' := fun he => hne (he ▸ hl)
      have h2 := getLast?_replaceDots hl (rstripDots_getLast_ne hl)
      unfold zone_url_to_name
      rw [h2]
      simp [hc]
  · have hnd := not_dot_mem_zone_url_to_name zone_url
    show replaceChar '.' "-".data (rstripDots (zone_url_to_name zone_url)) =
      zone_url_to_name zone_url
    rw [rstripDots_of_no_dot hnd]
    exact replaceChar_of_not_mem hnd

/-- C10 witness: the amended theorem at `"mydomain.com."`. -/
theorem c10_zone_trailing_witness :
    zone_url_to_name "mydomain.com.".data = "mydomain-com".data ∧
    ('m' ≠ '.') ∧
    ((zone_url_to_name "mydomain.com.".data).getLast? = some 'm') ∧
    ((zone_url_to_name "mydomain.com.".data).getLast? ≠ some '-') ∧
    zone_url_to_name (zone_url_to_name "mydomain.com.".data) =
      zone_url_to_name "mydomain.com.".data :=
  ⟨by decide,
   (c10_zone_trailing "mydomain.com.".data).2.1 'm' (by decide),
   (c10_zone_trailing "mydomain.com.".data).2.2.1 'm' (by decide) (by decide),
   (c10_zone_trailing "mydomain.com.".data).2.2.2.1 (by decide),
   (c10_zone_trailing "mydomain.com.".data).2.2.2.2⟩

/-- C2, counterexample: for a 506-character payload the claim's escaped
literal `\"<value>\"` is exactly 510 = 2·255 characters, so the claim demands
exactly one internal `\" \"` delimiter; the code chunks the string with the
extra trailing quote appended (511 characters, three chunks) and its output
contains two delimiters. -/
theorem c2_two_chunk_delimiter_counterexample :
    ("\\\"".data ++ List.replicate 506 'a' ++ "\\\"".data).length = 2 * 255 ∧
    countSubstr txtDelim (convert_data_for_TXT (List.replicate 506 'a')) = 2 ∧
    countSubstr txtDelim (convert_data_for_TXT (List.replicate 506 'a')) ≠ 1 :=
  ⟨by decide, by decide, by decide⟩

/-- C2 (amended): the conversion wraps the raw value as `\"<value>\""` — no
escaping of embedded quotes, and with the outer closing quote appended before
splitting — splits that string into chunks at exact 255-character offsets
joined by `\" \"`, and prepends the outer opening quote.  A payload whose
wrapped form (value length + 5) is at most 255 characters is emitted as one
chunk with no internal delimiter; one whose wrapped form is between 256 and
510 characters contains exactly one internal delimiter. -/
theorem c2_txt_long_string (orig_data : Str) :
    convert_data_for_TXT orig_data = '"' :: txtChunks (wrapTXT orig_data) ∧
    (wrapTXT orig_data).length = orig_data.length + 5 ∧
    ((wrapTXT orig_data).length ≤ 255 →
      convert_data_for_TXT orig_data = '"' :: wrapTXT orig_data) ∧
    (255 < (wrapTXT orig_data).length → (wrapTXT orig_data).length ≤ 510 →
      convert_data_for_TXT orig_data =
        '"' :: ((wrapTXT orig_data).take 255 ++ txtDelim ++ (wrapTXT orig_data).drop 255)) := by
  refine ⟨rfl, ?_, ?_, ?_⟩
  · unfold wrapTXT
    simp [List.length_append]
  · intro h
    unfold convert_data_for_TXT
    rw [txtChunks_of_le h]
  · intro h1 h2
    unfold convert_data_for_TXT
    rw [txtChunks_of_gt h1, txtChunks_of_le (by simp [List.length_drop]; omega)]

/-- C2 witness: the amended theorem at a 5-character payload (single chunk)
and at a 300-character payload (exactly two chunks, one delimiter). -/
theorem c2_txt_long_string_witness :
    convert_data_for_TXT "hello".data = '"' :: wrapTXT "hello".data ∧
    convert_data_for_TXT (List.replicate 300 'a') =
      '"' :: ((wrapTXT (List.replicate 300 'a')).take 255 ++ txtDelim ++
        (wrapTXT (List.replicate 300 'a')).drop 255) :=
  ⟨(c2_txt_long_string "hello".data).2.2.1 (by decide),
   (c2_txt_long_string (List.replicate 300 'a')).2.2.2 (by decide) (by decide)⟩

/-- C7, counterexample: exporting one A record and a two-record CNAME group
aborts with the CNAME cardinality error, yet the output artifact is not
empty — the zone stanza and the A block were already written when the
exception was raised. -/
theorem c7_partial_artifact_counterexample :
    (export_godaddy_dns_to_tf_file
        [⟨"A".data, "www".data, "1.2.3.4".data, 600, 0⟩,
         ⟨"CNAME".data, "x".data, "t1".data, 300, 0⟩,
         ⟨"CNAME".data, "x".data, "t2".data, 300, 0⟩] "ex.com".data).2 =
      some .notImplementedError ∧
    (export_godaddy_dns_to_tf_file
        [⟨"A".data, "www".data, "1.2.3.4".data, 600, 0⟩,
         ⟨"CNAME".data, "x".data, "t1".data, 300, 0⟩,
         ⟨"CNAME".data, "x".data, "t2".data, 300, 0⟩] "ex.com".data).1 ≠ [] :=
  ⟨by decide, by decide⟩

/-- C7 (amended): a fatal rendering condition aborts the export run — no
later-stage stanzas are written and the error is reported — but the artifact
is written incrementally during rendering, so on a mid-rendering failure the
output file still contains everything written before the failure, beginning
with the zone stanza; in particular it is never empty. -/
theorem c7_abort_partial_output (godaddy_records : List GodaddyRecord) (zone_url : Str)
    (e : PyErr)
    (h : (export_godaddy_dns_to_tf_file godaddy_records zone_url).2 = some e) :
    (∃ rest, (export_godaddy_dns_to_tf_file godaddy_records zone_url).1 =
      terraform_zone_stanza zone_url ++ rest) ∧
    (export_godaddy_dns_to_tf_file godaddy_records zone_url).1 ≠ [] := by
  refine ⟨export_content_start _ _, ?_⟩
  obtain ⟨rest, hr⟩ := export_content_start godaddy_records zone_url
  rw [hr]
  intro hnil
  rcases List.append_eq_nil.mp hnil with ⟨h1, _⟩
  exact terraform_zone_stanza_ne_nil zone_url h1

/-- C7 witness: the amended theorem at the aborting input of the
counterexample. -/
theorem c7_abort_partial_output_witness :
    (∃ rest, (export_godaddy_dns_to_tf_file
        [⟨"A".data, "www".data, "1.2.3.4".data, 600, 0⟩,
         ⟨"CNAME".data, "x".data, "t1".data, 300, 0⟩,
         ⟨"CNAME".data, "x".data, "t2".data, 300, 0⟩] "ex.com".data).1 =
      terraform_zone_stanza "ex.com".data ++ rest) ∧
    (export_godaddy_dns_to_tf_file
        [⟨"A".data, "www".data, "1.2.3.4".data, 600, 0⟩,
         ⟨"CNAME".data, "x".data, "t1".data, 300, 0⟩,
         ⟨"CNAME".data, "x".data, "t2".data, 300, 0⟩] "ex.com".data).1 ≠ [] :=
  c7_abort_partial_output _ "ex.com".data .notImplementedError (by decide)

/-- C4: for every non-empty MX group the rendered `priority_addresses` list is
sorted by priority ascending, is stable (for each priority the sublist of
pairs with that priority is exactly the corresponding sublist of the input,
in input order), is a permutation of the input pairs, and each rrdata entry
is the literal `"<priority> <target>.",`. -/
theorem c4_mx_ordering (godaddy_records : List GodaddyRecord) (zone_url : Str)
    (h : godaddy_records ≠ []) :
    List.Sorted mxLe (mxPriorityAddresses godaddy_records) ∧
    (∀ p, (mxPriorityAddresses godaddy_records).filter (fun x => decide (x.1 = p)) =
      (godaddy_records.map (fun r => (r.priority, r.data))).filter
        (fun x => decide (x.1 = p))) ∧
    (mxPriorityAddresses godaddy_records).Perm
      (godaddy_records.map (fun r => (r.priority, r.data))) ∧
    mxRrdataStrings godaddy_records = (mxPriorityAddresses godaddy_records).map
      (fun pa => "\"".data ++ natStr pa.1 ++ " ".data ++ pa.2 ++ ".\",".data) ∧
    (∀ r0 rest, godaddy_records = r0 :: rest → ∃ t,
      get_ttl godaddy_records = some t ∧
      terraform_MX_record_set godaddy_records zone_url = .ok (mxBlock
        (sanitize_tf_resource_name (godaddy_to_url r0.name zone_url false false false))
        (godaddy_to_url r0.name zone_url false false true)
        (zone_url_to_name zone_url) t
        ("[".data ++ List.intercalate "\n\t".data (mxRrdataStrings godaddy_records)
          ++ "]".data))) := by
  refine ⟨List.sorted_insertionSort mxLe _, fun p => filter_insertionSort p _,
    List.perm_insertionSort mxLe _, rfl, ?_⟩
  rintro r0 rest rfl
  obtain ⟨t, ht, _⟩ := @get_ttl_mem (r0 :: rest) (by simp)
  refine ⟨t, ht, ?_⟩
  unfold terraform_MX_record_set
  rw [ht]

/-- C4 witness: the theorem at the spec's example — priorities [20, 10, 10]
with data [b, a, c] sort to 10 a, 10 c, 20 b — and the rendered block. -/
theorem c4_mx_ordering_witness :
    List.Sorted mxLe (mxPriorityAddresses
      [⟨"MX".data, "@".data, "b".data, 3600, 20⟩,
       ⟨"MX".data, "@".data, "a".data, 3600, 10⟩,
       ⟨"MX".data, "@".data, "c".data, 3600, 10⟩]) ∧
    mxPriorityAddresses
      [⟨"MX".data, "@".data, "b".data, 3600, 20⟩,
       ⟨"MX".data, "@".data, "a".data, 3600, 10⟩,
       ⟨"MX".data, "@".data, "c".data, 3600, 10⟩] =
      [(10, "a".data), (10, "c".data), (20, "b".data)] ∧
    (∃ t, get_ttl
      [⟨"MX".data, "@".data, "b".data, 3600, 20⟩,
       ⟨"MX".data, "@".data, "a".data, 3600, 10⟩,
       ⟨"MX".data, "@".data, "c".data, 3600, 10⟩] = some t ∧
      terraform_MX_record_set
        [⟨"MX".data, "@".data, "b".data, 3600, 20⟩,
         ⟨"MX".data, "@".data, "a".data, 3600, 10⟩,
         ⟨"MX".data, "@".data, "c".data, 3600, 10⟩] "ex.com".data = .ok (mxBlock
        (sanitize_tf_resource_name (godaddy_to_url "@".data "ex.com".data false false false))
        (godaddy_to_url "@".data "ex.com".data false false true)
        (zone_url_to_name "ex.com".data) t
        ("[".data ++ List.intercalate "\n\t".data (mxRrdataStrings
          [⟨"MX".data, "@".data, "b".data, 3600, 20⟩,
           ⟨"MX".data, "@".data, "a".data, 3600, 10⟩,
           ⟨"MX".data, "@".data, "c".data, 3600, 10⟩]) ++ "]".data))) :=
  ⟨(c4_mx_ordering
      [⟨"MX".data, "@".data, "b".data, 3600, 20⟩,
       ⟨"MX".data, "@".data, "a".data, 3600, 10⟩,
       ⟨"MX".data, "@".data, "c".data, 3600, 10⟩] "ex.com".data (by decide)).1,
   by decide,
   (c4_mx_ordering
      [⟨"MX".data, "@".data, "b".data, 3600, 20⟩,
       ⟨"MX".data, "@".data, "a".data, 3600, 10⟩,
       ⟨"MX".data, "@".data, "c".data, 3600, 10⟩] "ex.com".data (by decide)).2.2.2.2
     ⟨"MX".data, "@".data, "b".data, 3600, 20⟩
     [⟨"MX".data, "@".data, "a".data, 3600, 10⟩,
      ⟨"MX".data, "@".data, "c".data, 3600, 10⟩] rfl⟩

/-- C6: grouping places every record in exactly one group — each group
reachable under keys (t, n) is exactly the input's sublist of records with
type t and name n (hence keyed by its members' own type and name, in input
order), every input record is found under its own (type, name) keys, the key
lists of both layers are duplicate-free, and concatenating all groups in
group-then-member order is a permutation of the input. -/
theorem c6_grouping_partition (godaddy_records : List GodaddyRecord) :
    (∀ t inner, lookupA t (group_records_by_type_name godaddy_records) = some inner →
      ∀ n g, lookupA n inner = some g →
        g = godaddy_records.filter (fun r => decide (r.type = t) && decide (r.name = n))) ∧
    (∀ r ∈ godaddy_records, ∃ inner g,
      lookupA r.type (group_records_by_type_name godaddy_records) = some inner ∧
      lookupA r.name inner = some g ∧ r ∈ g) ∧
    ((group_records_by_type_name godaddy_records).map Prod.fst).Nodup ∧
    (∀ p ∈ group_records_by_type_name godaddy_records, (p.2.map Prod.fst).Nodup) ∧
    (((group_records_by_type_name godaddy_records).map
        (fun p => (p.2.map Prod.snd).flatten)).flatten).Perm godaddy_records := by
  refine ⟨?_, ?_, ?_, ?_, ?_⟩
  · intro t inner hti n g hng
    unfold group_records_by_type_name at hti
    rw [lookupA_map] at hti
    cases hout : lookupA t (groupByKey (fun r => r.type) godaddy_records) with
    | none =>
      rw [hout] at hti
      exact absurd hti (by simp)
    | some rs =>
      rw [hout] at hti
      have hinner : inner = groupByKey (fun r => r.name) rs := by
        have h4 : some (groupByKey (fun r => r.name) rs) = some inner := hti
        exact (Option.some.inj h4).symm
      subst hinner
      have hrs := lookupA_groupByKey_eq_filter hout
      have hg := lookupA_groupByKey_eq_filter hng
      rw [hg, hrs, List.filter_filter]
      apply List.filter_congr
      intro r _
      simp [Bool.and_comm]
  · intro r hr
    have hout : lookupA r.type (groupByKey (fun s => s.type) godaddy_records) =
        some (godaddy_records.filter (fun s => decide (s.type = r.type))) :=
      lookupA_groupByKey_of_mem hr
    have hr2 : r ∈ godaddy_records.filter (fun s => decide (s.type = r.type)) :=
      List.mem_filter.mpr ⟨hr, by simp⟩
    have hin : lookupA r.name (groupByKey (fun s => s.name)
        (godaddy_records.filter (fun s => decide (s.type = r.type)))) =
        some ((godaddy_records.filter (fun s => decide (s.type = r.type))).filter
          (fun s => decide (s.name = r.name))) :=
      lookupA_groupByKey_of_mem hr2
    refine ⟨groupByKey (fun s => s.name)
        (godaddy_records.filter (fun s => decide (s.type = r.type))),
      (godaddy_records.filter (fun s => decide (s.type = r.type))).filter
        (fun s => decide (s.name = r.name)), ?_, ?_, ?_⟩
    · unfold group_records_by_type_name
      rw [lookupA_map, hout]
      rfl
    · exact hin
    · exact List.mem_filter.mpr ⟨hr2, by simp⟩
  · unfold group_records_by_type_name
    have h2 : ((groupByKey (fun r => r.type) godaddy_records).map
        (fun p => (p.1, groupByKey (fun r => r.name) p.2))).map Prod.fst =
        (groupByKey (fun r => r.type) godaddy_records).map Prod.fst := by
      rw [List.map_map]
      rfl
    rw [h2]
    exact keys_nodup_groupByKey _ _
  · intro p hp
    unfold group_records_by_type_name at hp
    obtain ⟨q, _, he⟩ := List.mem_map.mp hp
    subst he
    exact keys_nodup_groupByKey _ _
  · unfold group_records_by_type_name
    rw [List.map_map]
    have h3 : ∀ b ∈ groupByKey (fun r => r.type) godaddy_records,
        (((groupByKey (fun r => r.name) b.2).map Prod.snd).flatten).Perm b.2 :=
      fun b _ => joinVals_groupByKey (fun r => r.name) b.2
    refine (flatten_perm_of_forall
      ((fun p => (p.2.map Prod.snd).flatten) ∘ (fun p => (p.1, groupByKey (fun r => r.name) p.2)))
      Prod.snd _ ?_).trans (joinVals_groupByKey (fun r => r.type) godaddy_records)
    intro b hb
    exact h3 b hb

/-- C6 witness: the theorem at a three-record input with a duplicated
(type, name) key — the first A record is found under its own keys, and the
flattened grouping is a permutation of the input. -/
theorem c6_grouping_partition_witness :
    (∃ inner g,
      lookupA (⟨"A".data, "x".data, "1.2.3.4".data, 300, 0⟩ : GodaddyRecord).type
        (group_records_by_type_name
          [⟨"A".data, "x".data, "1.2.3.4".data, 300, 0⟩,
           ⟨"A".data, "x".data, "5.6.7.8".data, 300, 0⟩,
           ⟨"TXT".data, "x".data, "v".data, 600, 0⟩]) = some inner ∧
      lookupA (⟨"A".data, "x".data, "1.2.3.4".data, 300, 0⟩ : GodaddyRecord).name inner =
        some g ∧
      (⟨"A".data, "x".data, "1.2.3.4".data, 300, 0⟩ : GodaddyRecord) ∈ g) ∧
    (((group_records_by_type_name
        [⟨"A".data, "x".data, "1.2.3.4".data, 300, 0⟩,
         ⟨"A".data, "x".data, "5.6.7.8".data, 300, 0⟩,
         ⟨"TXT".data, "x".data, "v".data, 600, 0⟩]).map
        (fun p => (p.2.map Prod.snd).flatten)).flatten).Perm
      [⟨"A".data, "x".data, "1.2.3.4".data, 300, 0⟩,
       ⟨"A".data, "x".data, "5.6.7.8".data, 300, 0⟩,
       ⟨"TXT".data, "x".data, "v".data, 600, 0⟩] :=
  ⟨(c6_grouping_partition
      [⟨"A".data, "x".data, "1.2.3.4".data, 300, 0⟩,
       ⟨"A".data, "x".data, "5.6.7.8".data, 300, 0⟩,
       ⟨"TXT".data, "x".data, "v".data, 600, 0⟩]).2.1
    ⟨"A".data, "x".data, "1.2.3.4".data, 300, 0⟩ (by decide),
   (c6_grouping_partition
      [⟨"A".data, "x".data, "1.2.3.4".data, 300, 0⟩,
       ⟨"A".data, "x".data, "5.6.7.8".data, 300, 0⟩,
       ⟨"TXT".data, "x".data, "v".data, 600, 0⟩]).2.2.2.2⟩
